import Mathlib

set_option maxRecDepth 8000

/-!
Verification of the per-server message queue of the xous-core kernel
(`kernel/src/server.rs`).

The embedding is shallow: machine integers become `Nat` (with explicit
truncation `% 2 ^ 16` where the source performs an `as u16` cast), the
slot array becomes a `List`, fallible operations return
`Except xous.Error`, and a kernel panic (out-of-bounds index, a failed
`expect`/`unwrap`) is modelled as `Option.none` at the operation level.
-/

namespace Xous

/-- Modelled from the spec: `xous::MemoryRange` (the xous crate is not part
of the sources at hand) — a base address together with a byte length.
`as_ptr` is the `addr` field and `len` is the `size` field. -/
structure MemoryRange where
  addr : Nat
  size : Nat
deriving DecidableEq, Repr

/-- Modelled from the spec: `xous::MemoryAddress::new` is
`NonZeroUsize::new` — `none` exactly on address zero (the spec uses a zero
`server_addr` as the Move sentinel). -/
def MemoryAddress.new (n : Nat) : Option Nat :=
  if n = 0 then none else some n

/-- Modelled from the spec: `xous::MemorySize::new` is `NonZeroUsize::new`. -/
def MemorySize.new (n : Nat) : Option Nat :=
  if n = 0 then none else some n

/-- Modelled from the spec: `xous::PID::new` wraps a nonzero process id. -/
def PID.new (n : Nat) : Option Nat :=
  if n = 0 then none else some n

/-- The error values of `xous::Error` used by the server queue. -/
inductive Error where
  | BadAddress
  | ServerQueueFull
  | MemoryInUse
deriving DecidableEq, Repr

/-- Modelled from the spec: `xous::ScalarMessage`. -/
structure ScalarMessage where
  id : Nat
  arg1 : Nat
  arg2 : Nat
  arg3 : Nat
  arg4 : Nat
deriving DecidableEq, Repr

/-- Modelled from the spec: `xous::MemoryMessage`; `offset` and `valid`
are `Option<MemorySize>` in the source, hence optional nonzero sizes. -/
structure MemoryMessage where
  id : Nat
  buf : MemoryRange
  offset : Option Nat
  valid : Option Nat
deriving DecidableEq, Repr

/-- Modelled from the spec: `xous::Message`, the four message kinds
crossing the syscall boundary. -/
inductive Message where
  | Scalar (msg : ScalarMessage)
  | Move (msg : MemoryMessage)
  | MutableBorrow (msg : MemoryMessage)
  | Borrow (msg : MemoryMessage)
deriving DecidableEq, Repr

/-- Modelled from the spec: `xous::MessageEnvelope`, the sender token
together with the reconstructed message. -/
structure MessageEnvelope where
  sender : Nat
  message : Message
deriving DecidableEq, Repr

end Xous

/-- `WaitingMessage` from `kernel/src/server.rs`: the memory-return
obligation computed by `take_waiting_message`. -/
inductive WaitingMessage where
  | None
  | BorrowedMemory (pid : Nat) (tid : Nat) (server_addr : Nat) (client_addr : Nat) (len : Nat)
  | MovedMemory
  | ForgetMemory (range : Xous.MemoryRange)
deriving DecidableEq, Repr

/-- `QueuedMessage` from `kernel/src/server.rs`. Field order follows the
use sites (`take_next_message` writes and `take_waiting_message` reads
`WaitingResponse`/`WaitingForget` as pid, ctx, server addr, client addr,
len; the inline comments in the enum declaration disagree with both use
sites and are ignored). -/
inductive QueuedMessage where
  | Empty
  | ScalarMessage (pid ctx sender_base id arg1 arg2 arg3 arg4 : Nat)
  | MemoryMessageSend (pid ctx reserved id buf buf_size offset valid : Nat)
  | MemoryMessageROLend (pid ctx sender_base id buf buf_size offset valid : Nat)
  | MemoryMessageRWLend (pid ctx sender_base id buf buf_size offset valid : Nat)
  | MemoryMessageROLendTerminated (pid ctx sender_base id buf buf_size offset valid : Nat)
  | MemoryMessageRWLendTerminated (pid ctx sender_base id buf buf_size offset valid : Nat)
  | WaitingResponse (pid ctx server_addr client_addr len : Nat)
  | WaitingForget (pid ctx server_addr client_addr len : Nat)
deriving DecidableEq, Repr

/-- The `Server` record from `kernel/src/server.rs`: server id, owning
process, ring cursors, slot array and the ready-thread bitset. -/
structure Server where
  sid : Nat
  pid : Nat
  queue_head : Nat
  queue_tail : Nat
  queue : List QueuedMessage
  ready_threads : Nat
deriving DecidableEq, Repr

/-- `make_sender` from `kernel/src/server.rs`: pack a (16-bit) pid and ctx
into one sender word. -/
def make_sender (pid ctx : Nat) : Nat :=
  ((pid <<< 16) &&& 0xffff0000) ||| (ctx &&& 0xffff)

/-- The cursor increment inlined at every advance site in the source:
`c += 1; if c >= len { c = 0 }`. -/
def advance_index (c len : Nat) : Nat :=
  if c + 1 ≥ len then 0 else c + 1

/-- `PAGE_SIZE` of the target architecture (4096-byte pages). -/
def PAGE_SIZE : Nat := 4096

/-- `mem::size_of::<QueuedMessage>()`: 8 words of 4 bytes on the 32-bit
target, per the comment above the enum. -/
def QUEUED_MESSAGE_SIZE : Nat := 32

/-- A server whose queue holds `n` `Empty` slots and whose cursors and
ready set are zero; `Server.init` produces exactly this shape with
`n = PAGE_SIZE / QUEUED_MESSAGE_SIZE`. -/
def fresh_server (n pid sid : Nat) : Server :=
  { sid := sid
    pid := pid
    queue_head := 0
    queue_tail := 0
    queue := List.replicate n QueuedMessage.Empty
    ready_threads := 0 }

/-- `Server::init` from `kernel/src/server.rs`, restricted to the freshly
built record it stores (the surrounding `Option` slot management is not
needed by the claims). -/
def Server.init (pid sid : Nat) : Server :=
  fresh_server (PAGE_SIZE / QUEUED_MESSAGE_SIZE) pid sid

/-- The continuation of `take_waiting_message` once a
`WaitingResponse`/`WaitingForget` slot has been destructured: the buffer
check, the slot clear, the tail advance and the classification of the
return obligation. `none` models a kernel panic (a failed `expect` or
`unwrap`). -/
def take_waiting_message_go (s : Server) (idx : Nat) (pid ctx server_addr client_addr len : Nat)
    (forget : Bool) (buf : Xous.MemoryRange) :
    Option (Except Xous.Error WaitingMessage × Server) :=
  if server_addr ≠ buf.addr ∨ len ≠ buf.size then
    some (.error .BadAddress, s)
  else
    let s' : Server :=
      { s with
        queue := s.queue.set idx QueuedMessage.Empty
        queue_tail := advance_index s.queue_tail s.queue.length }
    if forget then
      some (.ok (.ForgetMemory ⟨server_addr, len⟩), s')
    else
      match Xous.MemoryAddress.new server_addr with
      | none => some (.ok .MovedMemory, s')
      | some sa =>
        match Xous.MemoryAddress.new client_addr, Xous.MemorySize.new len, Xous.PID.new pid with
        | some ca, some l, some p => some (.ok (.BorrowedMemory p ctx sa ca l), s')
        | _, _, _ => none

/-- `Server::take_waiting_message` from `kernel/src/server.rs`. The source
guard is `idx > self.queue.len()` (strictly greater), so `idx` equal to
the length passes the guard and the subsequent `self.queue[idx]` indexing
panics; that panic is the `none` branch of the lookup. -/
def take_waiting_message (s : Server) (idx : Nat) (buf : Xous.MemoryRange) :
    Option (Except Xous.Error WaitingMessage × Server) :=
  if idx > s.queue.length then
    some (.error .BadAddress, s)
  else
    match s.queue[idx]? with
    | none => none
    | some (.WaitingResponse pid ctx server_addr client_addr len) =>
        take_waiting_message_go s idx pid ctx server_addr client_addr len false buf
    | some (.WaitingForget pid ctx server_addr client_addr len) =>
        take_waiting_message_go s idx pid ctx server_addr client_addr len true buf
    | some _ => some (.ok .None, s)

/-- `Server::take_next_message` from `kernel/src/server.rs`: inspect the
slot at `queue_tail`; deliver and clear (advancing the tail) for
Scalar/Send, deliver and rewrite in place to `WaitingResponse` /
`WaitingForget` (tail unmoved) for the four lend variants, and return no
message otherwise. `none` models the panic of indexing with a tail out of
range. -/
def take_next_message (s : Server) (server_idx : Nat) :
    Option (Option Xous.MessageEnvelope × Server) :=
  match s.queue[s.queue_tail]? with
  | none => none
  | some QueuedMessage.Empty => some (none, s)
  | some (.WaitingResponse _ _ _ _ _) => some (none, s)
  | some (.WaitingForget _ _ _ _ _) => some (none, s)
  | some (.MemoryMessageROLend pid ctx client_addr id buf buf_size offset valid) =>
      some (some
        { sender := s.queue_tail ||| (server_idx <<< 16)
          message := Xous.Message.Borrow
            { id := id
              buf := ⟨buf, buf_size⟩
              offset := Xous.MemorySize.new offset
              valid := Xous.MemorySize.new valid } },
        { s with queue := s.queue.set s.queue_tail (.WaitingResponse pid ctx buf client_addr buf_size) })
  | some (.MemoryMessageRWLend pid ctx client_addr id buf buf_size offset valid) =>
      some (some
        { sender := s.queue_tail ||| (server_idx <<< 16)
          message := Xous.Message.MutableBorrow
            { id := id
              buf := ⟨buf, buf_size⟩
              offset := Xous.MemorySize.new offset
              valid := Xous.MemorySize.new valid } },
        { s with queue := s.queue.set s.queue_tail (.WaitingResponse pid ctx buf client_addr buf_size) })
  | some (.MemoryMessageROLendTerminated pid ctx client_addr id buf buf_size offset valid) =>
      some (some
        { sender := s.queue_tail ||| (server_idx <<< 16)
          message := Xous.Message.Borrow
            { id := id
              buf := ⟨buf, buf_size⟩
              offset := Xous.MemorySize.new offset
              valid := Xous.MemorySize.new valid } },
        { s with queue := s.queue.set s.queue_tail (.WaitingForget pid ctx buf client_addr buf_size) })
  | some (.MemoryMessageRWLendTerminated pid ctx client_addr id buf buf_size offset valid) =>
      some (some
        { sender := s.queue_tail ||| (server_idx <<< 16)
          message := Xous.Message.MutableBorrow
            { id := id
              buf := ⟨buf, buf_size⟩
              offset := Xous.MemorySize.new offset
              valid := Xous.MemorySize.new valid } },
        { s with queue := s.queue.set s.queue_tail (.WaitingForget pid ctx buf client_addr buf_size) })
  | some (.MemoryMessageSend pid ctx _reserved id buf buf_size offset valid) =>
      some (some
        { sender := make_sender pid ctx
          message := Xous.Message.Move
            { id := id
              buf := ⟨buf, buf_size⟩
              offset := Xous.MemorySize.new offset
              valid := Xous.MemorySize.new valid } },
        { s with queue := s.queue.set s.queue_tail QueuedMessage.Empty
                 queue_tail := advance_index s.queue_tail s.queue.length })
  | some (.ScalarMessage pid ctx _reserved id arg1 arg2 arg3 arg4) =>
      some (some
        { sender := make_sender pid ctx
          message := Xous.Message.Scalar
            { id := id, arg1 := arg1, arg2 := arg2, arg3 := arg3, arg4 := arg4 } },
        { s with queue := s.queue.set s.queue_tail QueuedMessage.Empty
                 queue_tail := advance_index s.queue_tail s.queue.length })

/-- The slot entry `Server::queue_message` writes for a given message:
Scalar, Move, MutableBorrow and Borrow map to `ScalarMessage`,
`MemoryMessageSend`, `MemoryMessageRWLend` and `MemoryMessageROLend`.
The `context as u16` cast truncates modulo `2 ^ 16`; the pid travels as
`u8 -> u16` and is preserved. -/
def queued_entry_of (pid context : Nat) (message : Xous.Message)
    (original_address : Option Nat) : QueuedMessage :=
  match message with
  | .Scalar msg =>
      .ScalarMessage pid (context % 65536) (original_address.getD 0)
        msg.id msg.arg1 msg.arg2 msg.arg3 msg.arg4
  | .Move msg =>
      .MemoryMessageSend pid (context % 65536) (original_address.getD 0)
        msg.id msg.buf.addr msg.buf.size (msg.offset.getD 0) (msg.valid.getD 0)
  | .MutableBorrow msg =>
      .MemoryMessageRWLend pid (context % 65536) (original_address.getD 0)
        msg.id msg.buf.addr msg.buf.size (msg.offset.getD 0) (msg.valid.getD 0)
  | .Borrow msg =>
      .MemoryMessageROLend pid (context % 65536) (original_address.getD 0)
        msg.id msg.buf.addr msg.buf.size (msg.offset.getD 0) (msg.valid.getD 0)

/-- `Server::queue_message` from `kernel/src/server.rs`: fail with
`ServerQueueFull` when the head slot is occupied, otherwise write the
entry for the message kind at the head, return the head index and advance
the head. `none` models the panic of indexing with a head out of range. -/
def queue_message (s : Server) (pid context : Nat) (message : Xous.Message)
    (original_address : Option Nat) :
    Option (Except Xous.Error Nat × Server) :=
  match s.queue[s.queue_head]? with
  | none => none
  | some slot =>
    if slot ≠ QueuedMessage.Empty then
      some (.error .ServerQueueFull, s)
    else
      some (.ok s.queue_head,
        { s with
          queue := s.queue.set s.queue_head
            (queued_entry_of pid context message original_address)
          queue_head := advance_index s.queue_head s.queue.length })

/-- `Server::queue_address` from `kernel/src/server.rs`: write a
`WaitingResponse` slot directly at the head, recording the borrowed
buffer of a lend message (zeroes for Scalar/Move), and advance the
head. -/
def queue_address (s : Server) (pid context : Nat) (message : Xous.Message)
    (client_address : Option Nat) :
    Option (Except Xous.Error Nat × Server) :=
  match s.queue[s.queue_head]? with
  | none => none
  | some slot =>
    if slot ≠ QueuedMessage.Empty then
      some (.error .ServerQueueFull, s)
    else
      let sa_len : Nat × Nat :=
        match message with
        | .Scalar _ | .Move _ => (0, 0)
        | .MutableBorrow msg | .Borrow msg => (msg.buf.addr, msg.buf.size)
      some (.ok s.queue_head,
        { s with
          queue := s.queue.set s.queue_head
            (.WaitingResponse pid (context % 65536) sa_len.1
              (client_address.getD 0) sa_len.2)
          queue_head := advance_index s.queue_head s.queue.length })

/-- The per-slot rewrite of `Server::discard_messages_for_pid`: a
`MemoryMessageROLend`/`MemoryMessageRWLend` whose sender pid matches
becomes the corresponding `Terminated` variant with the same payload;
every other slot is returned unchanged. -/
def discard_entry (pid : Nat) (e : QueuedMessage) : QueuedMessage :=
  match e with
  | .MemoryMessageROLend msg_pid ctx a1 a2 a3 a4 a5 a6 =>
      if msg_pid = pid then
        .MemoryMessageROLendTerminated msg_pid ctx a1 a2 a3 a4 a5 a6
      else e
  | .MemoryMessageRWLend msg_pid ctx a1 a2 a3 a4 a5 a6 =>
      if msg_pid = pid then
        .MemoryMessageRWLendTerminated msg_pid ctx a1 a2 a3 a4 a5 a6
      else e
  | _ => e

/-- `Server::discard_messages_for_pid` from `kernel/src/server.rs`:
apply `discard_entry` to every slot of the queue. -/
def discard_messages_for_pid (s : Server) (pid : Nat) : Server :=
  { s with queue := s.queue.map (discard_entry pid) }

/-- Bit width of `usize` on the 32-bit target; `rotate_left(1)` on the
probe mask returns to `1` after this many steps. -/
def WORD_BITS : Nat := 32

/-- The scan loop of `Server::take_available_thread`: probe bit `i`, then
`i + 1`, ...; the fuel counts the remaining rotations before the mask
wraps back to `1`, at which point the source panics (`none`). -/
def find_ready_thread (rt : Nat) : Nat → Nat → Option Nat
  | _, 0 => none
  | i, fuel + 1 =>
      if rt &&& (1 <<< i) = 1 <<< i then some i
      else find_ready_thread rt (i + 1) fuel

/-- `Server::take_available_thread` from `kernel/src/server.rs`: `none`
result when the bitset is zero, otherwise the lowest set bit is returned
and cleared (`ready_threads &= !mask`, the complement taken in the
machine word). -/
def take_available_thread (s : Server) :
    Option (Option Nat × Server) :=
  if s.ready_threads = 0 then
    some (none, s)
  else
    match find_ready_thread s.ready_threads 0 WORD_BITS with
    | none => none
    | some t =>
        some (some t,
          { s with ready_threads :=
              s.ready_threads &&& ((2 ^ WORD_BITS - 1) ^^^ (1 <<< t)) })

/-- Slot is held open awaiting the completion of a reply
(`WaitingResponse` or `WaitingForget`). -/
def is_awaiting : QueuedMessage → Bool
  | .WaitingResponse _ _ _ _ _ => true
  | .WaitingForget _ _ _ _ _ => true
  | _ => false

/-- Slot can be delivered by `take_next_message` (one of the six pending
message variants). -/
def is_deliverable : QueuedMessage → Bool
  | .Empty => false
  | .WaitingResponse _ _ _ _ _ => false
  | .WaitingForget _ _ _ _ _ => false
  | _ => true

/-- Slot is a pending read-only or read-write lend whose sender pid
matches; exactly these slots are rewritten by
`discard_messages_for_pid`. -/
def is_matching_lend (pid : Nat) : QueuedMessage → Bool
  | .MemoryMessageROLend p _ _ _ _ _ _ _ => p = pid
  | .MemoryMessageRWLend p _ _ _ _ _ _ _ => p = pid
  | _ => false

/-- A one-slot queue whose only slot is held awaiting a reply from
process 4: the state the termination sweep is claimed to rewrite. -/
def awaiting_reply_state : Server :=
  ⟨0, 1, 0, 0, [QueuedMessage.WaitingResponse 4 1 2 3 4], 0⟩

/-- The four admissible message kinds, used to state that `queue_message`
writes the slot variant corresponding to the admitted message's kind. -/
inductive MessageKind where
  | scalar
  | move
  | borrowRW
  | borrowRO
  | other
deriving DecidableEq, Repr

/-- Kind of an admissible message. -/
def message_kind : Xous.Message → MessageKind
  | .Scalar _ => .scalar
  | .Move _ => .move
  | .MutableBorrow _ => .borrowRW
  | .Borrow _ => .borrowRO

/-- Kind of a pending queue slot. -/
def entry_kind : QueuedMessage → MessageKind
  | .ScalarMessage _ _ _ _ _ _ _ _ => .scalar
  | .MemoryMessageSend _ _ _ _ _ _ _ _ => .move
  | .MemoryMessageRWLend _ _ _ _ _ _ _ _ => .borrowRW
  | .MemoryMessageROLend _ _ _ _ _ _ _ _ => .borrowRO
  | _ => .other

/-- The arguments of one admission: sender pid and thread, the message
and the original (client-side) address. -/
structure AdmitArgs where
  pid : Nat
  context : Nat
  message : Xous.Message
  original_address : Option Nat

/-- Run a list of admissions, requiring every one of them to succeed. -/
def admit_all : List AdmitArgs → Server → Option Server
  | [], s => some s
  | a :: rest, s =>
      match queue_message s a.pid a.context a.message a.original_address with
      | some (.ok _, s') => admit_all rest s'
      | _ => none

/-- State after `j` consecutive admissions into a fresh queue of
capacity `n`: the head sits at `j % n`, the first `j` slots are
occupied, the rest are still `Empty`. -/
def admit_inv (n j : Nat) (s : Server) : Prop :=
  s.queue.length = n ∧ s.queue_head = j % n ∧
  (∀ i, i < j → s.queue[i]? ≠ some QueuedMessage.Empty) ∧
  (∀ i, j ≤ i → i < n → s.queue[i]? = some QueuedMessage.Empty)

/-- A one-slot fresh queue and the single admission filling it. -/
def one_admit : List AdmitArgs := [⟨3, 1, .Scalar ⟨5, 1, 2, 3, 4⟩, none⟩]

/-- The state of the one-slot queue after its single admission. -/
def one_admit_full : Server :=
  ⟨1, 1, 0, 0, [QueuedMessage.ScalarMessage 3 1 0 5 1 2 3 4], 0⟩

/-- One step of the syscall-level interface on a single server queue:
admit a message, admit a reply slot, take the next message, complete a
reply, or run the termination sweep. -/
inductive ServerOp where
  | enqueue (pid context : Nat) (message : Xous.Message) (original_address : Option Nat)
  | admit_reply (pid context : Nat) (message : Xous.Message) (client_address : Option Nat)
  | take_next (server_idx : Nat)
  | complete (idx : Nat) (buf : Xous.MemoryRange)
  | discard (pid : Nat)

/-- Apply one operation, keeping only the server state; `none` is a
kernel panic. -/
def step_op (s : Server) : ServerOp → Option Server
  | .enqueue p c m o => (queue_message s p c m o).map (·.2)
  | .admit_reply p c m cl => (queue_address s p c m cl).map (·.2)
  | .take_next i => (take_next_message s i).map (·.2)
  | .complete i b => (take_waiting_message s i b).map (·.2)
  | .discard p => some (discard_messages_for_pid s p)

/-- Run a sequence of operations. -/
def run_ops (s : Server) : List ServerOp → Option Server
  | [] => some s
  | op :: rest =>
      match step_op s op with
      | none => none
      | some s' => run_ops s' rest

/-- Both ring cursors are strict bounds inside a queue of capacity `n`. -/
def queue_inv (n : Nat) (s : Server) : Prop :=
  s.queue.length = n ∧ s.queue_head < n ∧ s.queue_tail < n

/-- The wrapped cursor increment is addition modulo the queue length
whenever the cursor starts in range. -/
theorem advance_index_eq_mod {c len : Nat} (h : c < len) :
    advance_index c len = (c + 1) % len := by
  unfold advance_index
  rcases Nat.lt_or_ge (c + 1) len with h1 | h1
  · rw [if_neg (by omega), Nat.mod_eq_of_lt h1]
  · have hc : c + 1 = len := by omega
    rw [if_pos (by omega), hc, Nat.mod_self]

/-- The wrapped cursor increment lands in range when the length is
positive. -/
theorem advance_index_lt {c len : Nat} (h : 0 < len) :
    advance_index c len < len := by
  unfold advance_index
  split <;> omega

/-- Claim C1: for `slot_index ≥ capacity` the claim mandates `BadAddress`
with the state unchanged. The code guards with `idx > len`, so at
`idx = capacity` (here 128) the lookup `self.queue[idx]` is out of bounds
and the kernel panics (modelled as `none`); only for `idx > capacity`
does it return `BadAddress` and leave the server untouched. -/
theorem take_waiting_message_at_capacity_panics :
    take_waiting_message (Server.init 1 7) 128 ⟨4096, 32⟩ = none ∧
    take_waiting_message (Server.init 1 7) 129 ⟨4096, 32⟩ =
      some (.error Xous.Error.BadAddress, Server.init 1 7) := by
  constructor <;> rfl

/-- Claim C6: against an in-range slot that is not awaiting a reply
(`Empty` included, so a double reply is benign), `take_waiting_message`
returns `WaitingMessage.None` and changes nothing; against an awaiting
slot whose recorded server address or length differs from the passed
buffer it returns `BadAddress` and changes nothing. -/
theorem take_waiting_message_benign_and_mismatch (s : Server) (idx : Nat)
    (buf : Xous.MemoryRange) (h : idx < s.queue.length) :
    (∀ slot, s.queue[idx]? = some slot → is_awaiting slot = false →
      take_waiting_message s idx buf = some (.ok WaitingMessage.None, s)) ∧
    (∀ pid ctx sa ca len,
      s.queue[idx]? = some (.WaitingResponse pid ctx sa ca len) →
      (sa ≠ buf.addr ∨ len ≠ buf.size) →
      take_waiting_message s idx buf = some (.error Xous.Error.BadAddress, s)) ∧
    (∀ pid ctx sa ca len,
      s.queue[idx]? = some (.WaitingForget pid ctx sa ca len) →
      (sa ≠ buf.addr ∨ len ≠ buf.size) →
      take_waiting_message s idx buf = some (.error Xous.Error.BadAddress, s)) := by
  have hle : ¬ idx > s.queue.length := by omega
  refine ⟨?_, ?_, ?_⟩
  · intro slot hslot hna
    cases slot <;> simp [is_awaiting] at hna <;>
      simp [take_waiting_message, hle, hslot]
  · intro pid ctx sa ca len hslot hmm
    simp only [take_waiting_message, if_neg hle, hslot]
    unfold take_waiting_message_go
    rw [if_pos hmm]
  · intro pid ctx sa ca len hslot hmm
    simp only [take_waiting_message, if_neg hle, hslot]
    unfold take_waiting_message_go
    rw [if_pos hmm]

/-- Witness for the benign and mismatching reply paths at a concrete
queue: slot 0 is `Empty` (reply returns `None`), slot 1 awaits a reply
with server address 8 and length 4 while the passed buffer is
mismatched. -/
theorem take_waiting_message_benign_and_mismatch_witness :
    take_waiting_message
      ⟨0, 1, 0, 0, [QueuedMessage.Empty, QueuedMessage.WaitingResponse 3 1 8 16 4], 0⟩
      0 ⟨8, 4⟩ =
      some (.ok WaitingMessage.None,
        ⟨0, 1, 0, 0, [QueuedMessage.Empty, QueuedMessage.WaitingResponse 3 1 8 16 4], 0⟩) ∧
    take_waiting_message
      ⟨0, 1, 0, 0, [QueuedMessage.Empty, QueuedMessage.WaitingResponse 3 1 8 16 4], 0⟩
      1 ⟨9, 4⟩ =
      some (.error Xous.Error.BadAddress,
        ⟨0, 1, 0, 0, [QueuedMessage.Empty, QueuedMessage.WaitingResponse 3 1 8 16 4], 0⟩) :=
  ⟨(take_waiting_message_benign_and_mismatch _ 0 _ (by decide)).1
      QueuedMessage.Empty (by decide) (by decide),
   (take_waiting_message_benign_and_mismatch _ 1 _ (by decide)).2.1
      3 1 8 16 4 (by decide) (by decide)⟩

/-- Claim C3: completing a reply against an in-range awaiting slot whose
recorded server address and length match the passed buffer returns
`ForgetMemory` for `WaitingForget`, `MovedMemory` for a
`WaitingResponse` whose server address is zero, and `BorrowedMemory`
with the recorded fields otherwise; in all three cases the slot is
cleared to `Empty` and the tail advances by one modulo the capacity,
with no requirement that the slot index equal the tail. The nonzero side
conditions of the third case reproduce the `NonZero` payload types of
the source (`PID`, `MemoryAddress`, `MemorySize`), whose violation the
source turns into a panic. -/
theorem take_waiting_message_completes (s : Server) (idx : Nat)
    (buf : Xous.MemoryRange) (hidx : idx < s.queue.length)
    (htail : s.queue_tail < s.queue.length) :
    (∀ pid ctx sa ca len,
      s.queue[idx]? = some (.WaitingForget pid ctx sa ca len) →
      buf.addr = sa → buf.size = len →
      take_waiting_message s idx buf =
        some (.ok (.ForgetMemory ⟨sa, len⟩),
          { s with queue := s.queue.set idx QueuedMessage.Empty
                   queue_tail := (s.queue_tail + 1) % s.queue.length })) ∧
    (∀ pid ctx ca len,
      s.queue[idx]? = some (.WaitingResponse pid ctx 0 ca len) →
      buf.addr = 0 → buf.size = len →
      take_waiting_message s idx buf =
        some (.ok WaitingMessage.MovedMemory,
          { s with queue := s.queue.set idx QueuedMessage.Empty
                   queue_tail := (s.queue_tail + 1) % s.queue.length })) ∧
    (∀ pid ctx sa ca len,
      s.queue[idx]? = some (.WaitingResponse pid ctx sa ca len) →
      sa ≠ 0 → ca ≠ 0 → len ≠ 0 → pid ≠ 0 →
      buf.addr = sa → buf.size = len →
      take_waiting_message s idx buf =
        some (.ok (.BorrowedMemory pid ctx sa ca len),
          { s with queue := s.queue.set idx QueuedMessage.Empty
                   queue_tail := (s.queue_tail + 1) % s.queue.length })) := by
  have hle : ¬ idx > s.queue.length := by omega
  refine ⟨?_, ?_, ?_⟩
  · intro pid ctx sa ca len hslot ha hl
    simp only [take_waiting_message, if_neg hle, hslot]
    unfold take_waiting_message_go
    rw [if_neg (by omega)]
    simp [advance_index_eq_mod htail]
  · intro pid ctx ca len hslot ha hl
    simp only [take_waiting_message, if_neg hle, hslot]
    unfold take_waiting_message_go
    rw [if_neg (by omega)]
    simp [Xous.MemoryAddress.new, advance_index_eq_mod htail]
  · intro pid ctx sa ca len hslot hsa hca hlen hpid ha hl
    simp only [take_waiting_message, if_neg hle, hslot]
    unfold take_waiting_message_go
    rw [if_neg (by omega)]
    simp [Xous.MemoryAddress.new, Xous.MemorySize.new, Xous.PID.new,
      hsa, hca, hlen, hpid, advance_index_eq_mod htail]

/-- Claim C4: `take_next_message` returns no message and changes nothing
when the tail slot is `Empty` or awaiting a reply; it delivers, clears
the slot and advances the tail for Scalar and Move slots; and it
delivers, rewrites the slot in place to `WaitingResponse` (or
`WaitingForget` for the Terminated lends) carrying the sender pid, tid,
server address, client address and length, without advancing the tail,
for the four lend variants. -/
theorem take_next_message_cases (s : Server) (sidx : Nat)
    (htail : s.queue_tail < s.queue.length) :
    (∀ slot, s.queue[s.queue_tail]? = some slot → is_deliverable slot = false →
      take_next_message s sidx = some (none, s)) ∧
    (∀ pid ctx r id a1 a2 a3 a4,
      s.queue[s.queue_tail]? = some (.ScalarMessage pid ctx r id a1 a2 a3 a4) →
      take_next_message s sidx =
        some (some ⟨make_sender pid ctx, .Scalar ⟨id, a1, a2, a3, a4⟩⟩,
          { s with queue := s.queue.set s.queue_tail QueuedMessage.Empty
                   queue_tail := (s.queue_tail + 1) % s.queue.length })) ∧
    (∀ pid ctx r id buf bufsz off vld,
      s.queue[s.queue_tail]? = some (.MemoryMessageSend pid ctx r id buf bufsz off vld) →
      take_next_message s sidx =
        some (some ⟨make_sender pid ctx,
            .Move ⟨id, ⟨buf, bufsz⟩, Xous.MemorySize.new off, Xous.MemorySize.new vld⟩⟩,
          { s with queue := s.queue.set s.queue_tail QueuedMessage.Empty
                   queue_tail := (s.queue_tail + 1) % s.queue.length })) ∧
    (∀ pid ctx ca id buf bufsz off vld,
      s.queue[s.queue_tail]? = some (.MemoryMessageROLend pid ctx ca id buf bufsz off vld) →
      take_next_message s sidx =
        some (some ⟨s.queue_tail ||| (sidx <<< 16),
            .Borrow ⟨id, ⟨buf, bufsz⟩, Xous.MemorySize.new off, Xous.MemorySize.new vld⟩⟩,
          { s with queue := s.queue.set s.queue_tail (.WaitingResponse pid ctx buf ca bufsz) })) ∧
    (∀ pid ctx ca id buf bufsz off vld,
      s.queue[s.queue_tail]? = some (.MemoryMessageRWLend pid ctx ca id buf bufsz off vld) →
      take_next_message s sidx =
        some (some ⟨s.queue_tail ||| (sidx <<< 16),
            .MutableBorrow ⟨id, ⟨buf, bufsz⟩, Xous.MemorySize.new off, Xous.MemorySize.new vld⟩⟩,
          { s with queue := s.queue.set s.queue_tail (.WaitingResponse pid ctx buf ca bufsz) })) ∧
    (∀ pid ctx ca id buf bufsz off vld,
      s.queue[s.queue_tail]? =
        some (.MemoryMessageROLendTerminated pid ctx ca id buf bufsz off vld) →
      take_next_message s sidx =
        some (some ⟨s.queue_tail ||| (sidx <<< 16),
            .Borrow ⟨id, ⟨buf, bufsz⟩, Xous.MemorySize.new off, Xous.MemorySize.new vld⟩⟩,
          { s with queue := s.queue.set s.queue_tail (.WaitingForget pid ctx buf ca bufsz) })) ∧
    (∀ pid ctx ca id buf bufsz off vld,
      s.queue[s.queue_tail]? =
        some (.MemoryMessageRWLendTerminated pid ctx ca id buf bufsz off vld) →
      take_next_message s sidx =
        some (some ⟨s.queue_tail ||| (sidx <<< 16),
            .MutableBorrow ⟨id, ⟨buf, bufsz⟩, Xous.MemorySize.new off, Xous.MemorySize.new vld⟩⟩,
          { s with queue := s.queue.set s.queue_tail (.WaitingForget pid ctx buf ca bufsz) })) := by
  refine ⟨?_, ?_, ?_, ?_, ?_, ?_, ?_⟩
  · intro slot hslot hnd
    cases slot <;> simp [is_deliverable] at hnd <;>
      simp [take_next_message, hslot]
  all_goals
    intro pid ctx x id b1 b2 b3 b4 hslot
  all_goals
    simp [take_next_message, hslot, advance_index_eq_mod htail]

/-- Witness for the delivery cases at a concrete two-slot queue whose
tail slot is a pending read-only lend. -/
theorem take_next_message_cases_witness :
    take_next_message
      ⟨0, 1, 0, 0, [QueuedMessage.MemoryMessageROLend 3 1 20480 9 4096 64 0 64,
                    QueuedMessage.Empty], 0⟩ 5 =
      some (some ⟨0 ||| (5 <<< 16),
          .Borrow ⟨9, ⟨4096, 64⟩, Xous.MemorySize.new 0, Xous.MemorySize.new 64⟩⟩,
        ⟨0, 1, 0, 0, [QueuedMessage.WaitingResponse 3 1 4096 20480 64,
                      QueuedMessage.Empty], 0⟩) := by
  have h := (take_next_message_cases
    ⟨0, 1, 0, 0, [QueuedMessage.MemoryMessageROLend 3 1 20480 9 4096 64 0 64,
                  QueuedMessage.Empty], 0⟩ 5 (by decide)).2.2.2.1
    3 1 20480 9 4096 64 0 64 (by decide)
  simpa using h

/-- Claim C2 counterexample: the termination sweep does not rewrite an
`AwaitingReply` (`WaitingResponse`) slot of the dying sender to
`AwaitingForget`; the sweep matches only the pending
`MemoryMessageROLend`/`MemoryMessageRWLend` variants and leaves the
awaiting slot exactly as it is. -/
theorem discard_leaves_awaiting_reply :
    ¬ ((discard_messages_for_pid awaiting_reply_state 4).queue[0]? =
        some (QueuedMessage.WaitingForget 4 1 2 3 4)) := by
  decide

/-- Claim C2 as amended: `discard_messages_for_pid` rewrites every
pending `MemoryMessageROLend`/`MemoryMessageRWLend` slot whose sender
pid matches to the corresponding `Terminated` variant with identical
payload, and leaves every other slot — `Empty`, Scalar, Move, the
already-terminated lends, and the awaiting states `WaitingResponse` and
`WaitingForget` — untouched. -/
theorem discard_messages_for_pid_rewrites (s : Server) (pid i : Nat) :
    ((discard_messages_for_pid s pid).queue.length = s.queue.length) ∧
    (∀ c a1 a2 a3 a4 a5 a6,
      s.queue[i]? = some (.MemoryMessageROLend pid c a1 a2 a3 a4 a5 a6) →
      (discard_messages_for_pid s pid).queue[i]? =
        some (.MemoryMessageROLendTerminated pid c a1 a2 a3 a4 a5 a6)) ∧
    (∀ c a1 a2 a3 a4 a5 a6,
      s.queue[i]? = some (.MemoryMessageRWLend pid c a1 a2 a3 a4 a5 a6) →
      (discard_messages_for_pid s pid).queue[i]? =
        some (.MemoryMessageRWLendTerminated pid c a1 a2 a3 a4 a5 a6)) ∧
    (∀ slot, s.queue[i]? = some slot → is_matching_lend pid slot = false →
      (discard_messages_for_pid s pid).queue[i]? = some slot) := by
  refine ⟨by simp [discard_messages_for_pid], ?_, ?_, ?_⟩
  · intro c a1 a2 a3 a4 a5 a6 hslot
    simp [discard_messages_for_pid, List.getElem?_map, hslot, discard_entry]
  · intro c a1 a2 a3 a4 a5 a6 hslot
    simp [discard_messages_for_pid, List.getElem?_map, hslot, discard_entry]
  · intro slot hslot hnm
    simp only [discard_messages_for_pid, List.getElem?_map, hslot, Option.map_some]
    cases slot <;> simp_all [is_matching_lend, discard_entry]

/-- Witness for the amended termination sweep on a concrete two-slot
queue: the matching read-only lend becomes `Terminated`, the scalar slot
is untouched. -/
theorem discard_messages_for_pid_rewrites_witness :
    (discard_messages_for_pid
        ⟨0, 1, 0, 0, [QueuedMessage.MemoryMessageROLend 4 1 2 3 4 5 6 7,
                      QueuedMessage.ScalarMessage 4 1 0 9 1 2 3 4], 0⟩ 4).queue[0]? =
      some (QueuedMessage.MemoryMessageROLendTerminated 4 1 2 3 4 5 6 7) ∧
    (discard_messages_for_pid
        ⟨0, 1, 0, 0, [QueuedMessage.MemoryMessageROLend 4 1 2 3 4 5 6 7,
                      QueuedMessage.ScalarMessage 4 1 0 9 1 2 3 4], 0⟩ 4).queue[1]? =
      some (QueuedMessage.ScalarMessage 4 1 0 9 1 2 3 4) :=
  ⟨(discard_messages_for_pid_rewrites _ 4 0).2.1 1 2 3 4 5 6 7 (by decide),
   (discard_messages_for_pid_rewrites _ 4 1).2.2.2
      (QueuedMessage.ScalarMessage 4 1 0 9 1 2 3 4) (by decide) (by decide)⟩

/-- Claim C10: the termination sweep is frame-preserving — the server
id, the owning pid, both cursors and the ready-thread bitset are
unchanged, and every slot that is not a pending lend with matching
sender pid keeps its exact value. -/
theorem discard_messages_for_pid_frame (s : Server) (pid : Nat) :
    (discard_messages_for_pid s pid).sid = s.sid ∧
    (discard_messages_for_pid s pid).pid = s.pid ∧
    (discard_messages_for_pid s pid).queue_head = s.queue_head ∧
    (discard_messages_for_pid s pid).queue_tail = s.queue_tail ∧
    (discard_messages_for_pid s pid).ready_threads = s.ready_threads ∧
    ∀ (i : Nat) (slot : QueuedMessage),
      s.queue[i]? = some slot → is_matching_lend pid slot = false →
      (discard_messages_for_pid s pid).queue[i]? = some slot := by
  refine ⟨rfl, rfl, rfl, rfl, rfl, ?_⟩
  intro i slot hslot hnm
  simp only [discard_messages_for_pid, List.getElem?_map, hslot, Option.map_some]
  cases slot <;> simp_all [is_matching_lend, discard_entry]

/-- Witness for the sweep's frame property: an awaiting slot of the
dying pid itself is untouched, and so are the cursors. -/
theorem discard_messages_for_pid_frame_witness :
    (discard_messages_for_pid awaiting_reply_state 4).queue[0]? =
      some (QueuedMessage.WaitingResponse 4 1 2 3 4) :=
  (discard_messages_for_pid_frame awaiting_reply_state 4).2.2.2.2.2
    0 (QueuedMessage.WaitingResponse 4 1 2 3 4) (by decide) (by decide)

/-- The admitted slot entry is never `Empty`. -/
theorem queued_entry_of_ne_empty (pid ctx : Nat) (m : Xous.Message) (o : Option Nat) :
    queued_entry_of pid ctx m o ≠ QueuedMessage.Empty := by
  cases m <;> simp [queued_entry_of]

/-- The admitted slot entry has the kind of the admitted message. -/
theorem entry_kind_queued_entry_of (pid ctx : Nat) (m : Xous.Message) (o : Option Nat) :
    entry_kind (queued_entry_of pid ctx m o) = message_kind m := by
  cases m <;> rfl

/-- One successful admission step under the fresh-fill invariant. -/
theorem queue_message_step_inv {n j : Nat} {s : Server} (hinv : admit_inv n j s)
    (hj : j < n) (pid ctx : Nat) (m : Xous.Message) (o : Option Nat) :
    queue_message s pid ctx m o =
      some (.ok s.queue_head,
        { s with queue := s.queue.set s.queue_head (queued_entry_of pid ctx m o)
                 queue_head := advance_index s.queue_head s.queue.length }) ∧
    admit_inv n (j + 1)
      { s with queue := s.queue.set s.queue_head (queued_entry_of pid ctx m o)
               queue_head := advance_index s.queue_head s.queue.length } := by
  obtain ⟨hlen, hhead, hocc, hemp⟩ := hinv
  have hjn : j % n = j := Nat.mod_eq_of_lt hj
  have hheadj : s.queue_head = j := by rw [hhead, hjn]
  have hslot : s.queue[s.queue_head]? = some QueuedMessage.Empty := by
    rw [hheadj]; exact hemp j le_rfl hj
  constructor
  · simp [queue_message, hslot]
  · refine ⟨by simp [hlen], ?_, ?_, ?_⟩
    · simpa [hlen, hheadj] using advance_index_eq_mod (by omega : j < s.queue.length)
    · intro i hi
      rcases Nat.lt_or_ge i j with hij | hij
      · have := hocc i hij
        rw [List.getElem?_set_ne (by omega)]
        exact this
      · have hieq : i = j := by omega
        subst hieq
        rw [hheadj, List.getElem?_set_self (by omega)]
        simp [queued_entry_of_ne_empty]
    · intro i hji hin
      rw [List.getElem?_set_ne (by omega)]
      exact hemp i (by omega) hin

/-- Every prefix of admissions into a fresh queue succeeds while
capacity remains, maintaining the fill invariant. -/
theorem admit_all_of_inv {n : Nat} :
    ∀ (args : List AdmitArgs) (j : Nat) (s : Server),
      admit_inv n j s → j + args.length ≤ n →
      ∃ s', admit_all args s = some s' ∧ admit_inv n (j + args.length) s'
  | [], j, s, hinv, _ => ⟨s, rfl, by simpa using hinv⟩
  | a :: rest, j, s, hinv, hle => by
      have hj : j < n := by
        have := List.length_cons a rest
        omega
      obtain ⟨hstep, hinv'⟩ := queue_message_step_inv hinv hj a.pid a.context a.message
        a.original_address
      obtain ⟨s', hrun, hinv''⟩ := admit_all_of_inv rest (j + 1) _ hinv' (by
        simp only [List.length_cons] at hle; omega)
      refine ⟨s', ?_, ?_⟩
      · simp only [admit_all, hstep, hrun]
      · simpa [Nat.add_comm, Nat.add_assoc, Nat.add_left_comm] using hinv''

/-- A fresh queue satisfies the fill invariant with no admissions. -/
theorem admit_inv_fresh (n pid sid : Nat) : admit_inv n 0 (fresh_server n pid sid) := by
  refine ⟨by simp [fresh_server], by simp [fresh_server], ?_, ?_⟩
  · intro i hi; omega
  · intro i _ hin
    simp [fresh_server, List.getElem?_replicate, hin]

/-- Claim C5: `queue_message` fails with `ServerQueueFull` and changes
nothing exactly when the head slot is occupied; otherwise it writes the
slot variant of the admitted message's kind at the head, returns the
head index, and advances the head modulo capacity. Consequently a fresh
queue of capacity `n > 0` accepts exactly `n` admissions, and every
further admission fails with `ServerQueueFull` leaving the state
unchanged. -/
theorem queue_message_spec :
    (∀ (s : Server) (pid ctx : Nat) (m : Xous.Message) (o : Option Nat)
        (slot : QueuedMessage), s.queue[s.queue_head]? = some slot →
      (slot ≠ QueuedMessage.Empty →
        queue_message s pid ctx m o = some (.error Xous.Error.ServerQueueFull, s)) ∧
      (slot = QueuedMessage.Empty →
        queue_message s pid ctx m o =
          some (.ok s.queue_head,
            { s with queue := s.queue.set s.queue_head (queued_entry_of pid ctx m o)
                     queue_head := (s.queue_head + 1) % s.queue.length }) ∧
        entry_kind (queued_entry_of pid ctx m o) = message_kind m)) ∧
    (∀ (n : Nat) (args : List AdmitArgs) (spid ssid : Nat), 0 < n → args.length = n →
      match admit_all args (fresh_server n spid ssid) with
      | some s' => ∀ (pid ctx : Nat) (m : Xous.Message) (o : Option Nat),
          queue_message s' pid ctx m o = some (.error Xous.Error.ServerQueueFull, s')
      | none => False) := by
  constructor
  · intro s pid ctx m o slot hslot
    constructor
    · intro hne
      simp [queue_message, hslot, hne]
    · intro he
      subst he
      have hhead : s.queue_head < s.queue.length :=
        List.getElem?_eq_some.mp hslot |>.choose
      refine ⟨?_, entry_kind_queued_entry_of pid ctx m o⟩
      simp [queue_message, hslot, advance_index_eq_mod hhead]
  · intro n args spid ssid hn hlen
    obtain ⟨s', hrun, hinv⟩ :=
      admit_all_of_inv args 0 (fresh_server n spid ssid)
        (admit_inv_fresh n spid ssid) (by omega)
    rw [hrun]
    intro pid ctx m o
    obtain ⟨hqlen, hhead, hocc, _⟩ := hinv
    have hhead0 : s'.queue_head = 0 := by
      rw [hhead]; simp [hlen]
    obtain ⟨slot, hslot⟩ : ∃ slot, s'.queue[0]? = some slot := by
      have : 0 < s'.queue.length := by omega
      exact ⟨s'.queue[0], List.getElem?_eq_some.mpr ⟨this, rfl⟩⟩
    have hne : slot ≠ QueuedMessage.Empty := by
      intro he
      exact hocc 0 (by omega) (by rw [hslot, he])
    rw [← hhead0] at hslot
    simp [queue_message, hslot, hne]

/-- Witness for the admission specification: the single admission into
the one-slot fresh queue succeeds, and a further admission into the full
queue fails with `ServerQueueFull` and no state change. -/
theorem queue_message_spec_witness :
    (queue_message ⟨0, 1, 0, 0, [QueuedMessage.Empty], 0⟩ 3 1
        (.Scalar ⟨5, 1, 2, 3, 4⟩) none =
      some (.ok 0, ⟨0, 1, 0, 0, [QueuedMessage.ScalarMessage 3 1 0 5 1 2 3 4], 0⟩)) ∧
    (queue_message one_admit_full 9 9 (.Scalar ⟨0, 0, 0, 0, 0⟩) none =
      some (.error Xous.Error.ServerQueueFull, one_admit_full)) := by
  constructor
  · have h1 := (queue_message_spec.1 ⟨0, 1, 0, 0, [QueuedMessage.Empty], 0⟩ 3 1
      (.Scalar ⟨5, 1, 2, 3, 4⟩) none QueuedMessage.Empty rfl).2 rfl
    simpa using h1.1
  · have h2 := queue_message_spec.2 1 one_admit 1 1 (by decide) rfl
    have he : admit_all one_admit (fresh_server 1 1 1) = some one_admit_full := by rfl
    rw [he] at h2
    exact h2 9 9 (.Scalar ⟨0, 0, 0, 0, 0⟩) none

/-- The probe `rt & mask == mask` of the scan loop, with `mask = 1 << i`,
tests bit `i`. -/
theorem and_shift_mask_iff (rt i : Nat) :
    (rt &&& (1 <<< i) = 1 <<< i) ↔ rt.testBit i = true := by
  rw [Nat.shiftLeft_eq, one_mul]
  have h2 := Nat.and_two_pow rt i
  constructor
  · intro h
    rw [h] at h2
    rcases hb : rt.testBit i with _ | _
    · rw [hb] at h2
      simp at h2
    · rfl
  · intro h
    rw [h2, h]
    simp

/-- Soundness of the scan loop: a found index lies in the scanned
window, its bit is set, and no lower bit of the window is set. -/
theorem find_ready_thread_spec (rt : Nat) :
    ∀ (fuel i t : Nat), find_ready_thread rt i fuel = some t →
      i ≤ t ∧ t < i + fuel ∧ rt.testBit t = true ∧
        ∀ j, i ≤ j → j < t → rt.testBit j = false
  | 0, i, t => by simp [find_ready_thread]
  | fuel + 1, i, t => by
      intro h
      unfold find_ready_thread at h
      by_cases hb : rt &&& (1 <<< i) = 1 <<< i
      · rw [if_pos hb] at h
        obtain rfl : i = t := by injection h
        exact ⟨le_rfl, by omega, (and_shift_mask_iff rt i).mp hb,
          fun j hij hjt => absurd (lt_of_le_of_lt hij hjt) (lt_irrefl i)⟩
      · rw [if_neg hb] at h
        obtain ⟨h1, h1', h2, h3⟩ := find_ready_thread_spec rt fuel (i + 1) t h
        refine ⟨by omega, by omega, h2, ?_⟩
        intro j hij hjt
        rcases Nat.eq_or_lt_of_le hij with heq | hlt
        · have hfalse : rt.testBit i = false := by
            rcases hbit : rt.testBit i with _ | _
            · rfl
            · exact absurd ((and_shift_mask_iff rt i).mpr hbit) hb
          exact heq ▸ hfalse
        · exact h3 j (by omega) hjt

/-- Completeness of the scan loop: when some bit of the scanned window
is set, the scan returns an index. -/
theorem find_ready_thread_finds (rt : Nat) :
    ∀ (fuel i : Nat), (∃ j, i ≤ j ∧ j < i + fuel ∧ rt.testBit j = true) →
      ∃ t, find_ready_thread rt i fuel = some t
  | 0, i => by
      rintro ⟨j, h1, h2, _⟩
      omega
  | fuel + 1, i => by
      rintro ⟨j, h1, h2, h3⟩
      unfold find_ready_thread
      by_cases hb : rt &&& (1 <<< i) = 1 <<< i
      · exact ⟨i, by rw [if_pos hb]⟩
      · rw [if_neg hb]
        apply find_ready_thread_finds rt fuel (i + 1)
        have hij : i ≠ j := fun heq =>
          hb ((and_shift_mask_iff rt i).mpr (heq.symm ▸ h3))
        exact ⟨j, by omega, by omega, h3⟩

/-- A nonzero bitset bounded by the machine word has a set bit below the
word width. -/
theorem exists_testBit_lt (rt : Nat) (h0 : rt ≠ 0) (hlt : rt < 2 ^ WORD_BITS) :
    ∃ j, j < WORD_BITS ∧ rt.testBit j = true := by
  by_contra hc
  push_neg at hc
  apply h0
  apply Nat.zero_of_testBit_eq_false
  intro i
  by_cases hi : i < WORD_BITS
  · simpa using hc i hi
  · exact Nat.testBit_lt_two_pow
      (lt_of_lt_of_le hlt (Nat.pow_le_pow_right (by norm_num) (by omega)))

/-- Clearing via `rt & !mask` (complement in the machine word) clears
exactly bit `t` of a word-bounded bitset. -/
theorem testBit_clear_mask (rt t j : Nat) (hrt : rt < 2 ^ WORD_BITS)
    (ht : t < WORD_BITS) :
    (rt &&& ((2 ^ WORD_BITS - 1) ^^^ (1 <<< t))).testBit j =
      (rt.testBit j && !decide (j = t)) := by
  rw [Nat.testBit_and, Nat.testBit_xor, Nat.shiftLeft_eq, one_mul,
    Nat.testBit_two_pow_sub_one, Nat.testBit_two_pow]
  by_cases hj : j < WORD_BITS
  · by_cases hjt : j = t
    · subst hjt
      simp [hj]
    · simp [hj, hjt]
      intro _
      omega
  · have hbit : rt.testBit j = false := Nat.testBit_lt_two_pow
      (lt_of_lt_of_le hrt (Nat.pow_le_pow_right (by norm_num) (by omega)))
    have hjt : ¬ t = j := by omega
    simp [hj, hjt, hbit]

/-- Claim C8: `take_available_thread` returns `none` on an empty ready
set; on a nonzero word-bounded set it returns the lowest set bit and
clears exactly that bit, touching no other server field; and on the
concrete parked set `{2, 5, 7}` successive calls yield 2, 5, 7 and then
`none`. -/
theorem take_available_thread_spec :
    (∀ s : Server, s.ready_threads = 0 → take_available_thread s = some (none, s)) ∧
    (∀ s : Server, s.ready_threads ≠ 0 → s.ready_threads < 2 ^ WORD_BITS →
      match take_available_thread s with
      | some (some t, s') =>
          s.ready_threads.testBit t = true ∧
          (∀ j, j < t → s.ready_threads.testBit j = false) ∧
          (∀ j, s'.ready_threads.testBit j =
            (s.ready_threads.testBit j && !decide (j = t))) ∧
          s'.sid = s.sid ∧ s'.pid = s.pid ∧ s'.queue_head = s.queue_head ∧
          s'.queue_tail = s.queue_tail ∧ s'.queue = s.queue
      | _ => False) ∧
    (take_available_thread ⟨0, 1, 0, 0, [], 164⟩ = some (some 2, ⟨0, 1, 0, 0, [], 160⟩) ∧
     take_available_thread ⟨0, 1, 0, 0, [], 160⟩ = some (some 5, ⟨0, 1, 0, 0, [], 128⟩) ∧
     take_available_thread ⟨0, 1, 0, 0, [], 128⟩ = some (some 7, ⟨0, 1, 0, 0, [], 0⟩) ∧
     take_available_thread ⟨0, 1, 0, 0, [], 0⟩ = some (none, ⟨0, 1, 0, 0, [], 0⟩)) := by
  refine ⟨?_, ?_, by decide, by decide, by decide, by decide⟩
  · intro s h0
    simp [take_available_thread, h0]
  · intro s h0 hlt
    obtain ⟨j, hj, hjset⟩ := exists_testBit_lt s.ready_threads h0 hlt
    obtain ⟨t, hfind⟩ := find_ready_thread_finds s.ready_threads WORD_BITS 0
      ⟨j, by omega, by omega, hjset⟩
    obtain ⟨-, htw, htset, hlow⟩ :=
      find_ready_thread_spec s.ready_threads WORD_BITS 0 t hfind
    unfold take_available_thread
    rw [if_neg h0, hfind]
    refine ⟨htset, fun j hjt => hlow j (by omega) hjt, ?_, rfl, rfl, rfl, rfl, rfl⟩
    intro i
    exact testBit_clear_mask s.ready_threads t i hlt (by omega)

/-- Witness for the nonzero branch of the ready-set specification at the
concrete parked set `{2, 5, 7}`. -/
theorem take_available_thread_spec_witness :
    (match take_available_thread ⟨0, 1, 0, 0, [], 164⟩ with
      | some (some t, s') =>
          (164 : Nat).testBit t = true ∧
          (∀ j, j < t → (164 : Nat).testBit j = false) ∧
          (∀ j, s'.ready_threads.testBit j =
            ((164 : Nat).testBit j && !decide (j = t))) ∧
          s'.sid = 0 ∧ s'.pid = 1 ∧ s'.queue_head = 0 ∧
          s'.queue_tail = 0 ∧ s'.queue = []
      | _ => False) :=
  take_available_thread_spec.2.1 ⟨0, 1, 0, 0, [], 164⟩ (by decide) (by decide)

/-- Admission preserves the cursor invariant. -/
theorem queue_message_inv {n : Nat} {s : Server} (h : queue_inv n s)
    (p c : Nat) (m : Xous.Message) (o : Option Nat) {r : Except Xous.Error Nat}
    {s' : Server} (hrun : queue_message s p c m o = some (r, s')) :
    queue_inv n s' := by
  obtain ⟨hlen, hh, ht⟩ := h
  rcases hq : s.queue[s.queue_head]? with _ | slot
  · simp [queue_message, hq] at hrun
  · by_cases he : slot = QueuedMessage.Empty
    · subst he
      simp only [queue_message, hq, ne_eq, not_true_eq_false, if_false,
        Option.some.injEq, Prod.mk.injEq] at hrun
      obtain ⟨-, hs'⟩ := hrun
      subst hs'
      refine ⟨by simp [hlen], ?_, by simpa using ht⟩
      show advance_index s.queue_head s.queue.length < n
      rw [← hlen]
      exact advance_index_lt (by omega)
    · simp only [queue_message, hq, ne_eq, he, not_false_eq_true, if_true,
        Option.some.injEq, Prod.mk.injEq] at hrun
      obtain ⟨-, hs'⟩ := hrun
      subst hs'
      exact ⟨hlen, hh, ht⟩

/-- Admitting a reply slot preserves the cursor invariant. -/
theorem queue_address_inv {n : Nat} {s : Server} (h : queue_inv n s)
    (p c : Nat) (m : Xous.Message) (cl : Option Nat) {r : Except Xous.Error Nat}
    {s' : Server} (hrun : queue_address s p c m cl = some (r, s')) :
    queue_inv n s' := by
  obtain ⟨hlen, hh, ht⟩ := h
  rcases hq : s.queue[s.queue_head]? with _ | slot
  · simp [queue_address, hq] at hrun
  · by_cases he : slot = QueuedMessage.Empty
    · subst he
      simp only [queue_address, hq, ne_eq, not_true_eq_false, if_false,
        Option.some.injEq, Prod.mk.injEq] at hrun
      obtain ⟨-, hs'⟩ := hrun
      subst hs'
      refine ⟨by simp [hlen], ?_, by simpa using ht⟩
      show advance_index s.queue_head s.queue.length < n
      rw [← hlen]
      exact advance_index_lt (by omega)
    · simp only [queue_address, hq, ne_eq, he, not_false_eq_true, if_true,
        Option.some.injEq, Prod.mk.injEq] at hrun
      obtain ⟨-, hs'⟩ := hrun
      subst hs'
      exact ⟨hlen, hh, ht⟩

/-- Taking the next message preserves the cursor invariant. -/
theorem take_next_message_inv {n : Nat} {s : Server} (h : queue_inv n s)
    (i : Nat) {r : Option Xous.MessageEnvelope} {s' : Server}
    (hrun : take_next_message s i = some (r, s')) : queue_inv n s' := by
  obtain ⟨hlen, hh, ht⟩ := h
  have hpos : 0 < s.queue.length := by omega
  rcases hq : s.queue[s.queue_tail]? with _ | slot
  · simp [take_next_message, hq] at hrun
  · cases slot <;>
      (simp only [take_next_message, hq, Option.some.injEq, Prod.mk.injEq] at hrun
       obtain ⟨-, hs'⟩ := hrun
       subst hs'
       refine ⟨by simp [hlen], by simpa using hh, ?_⟩
       first
         | simpa using ht
         | (show advance_index s.queue_tail s.queue.length < n
            rw [← hlen]
            exact advance_index_lt hpos))

/-- The reply-completion continuation preserves the cursor invariant. -/
theorem take_waiting_message_go_inv {n : Nat} {s : Server}
    (hlen : s.queue.length = n) (hh : s.queue_head < n) (ht : s.queue_tail < n)
    (idx pid ctx sa ca len : Nat) (forget : Bool) (buf : Xous.MemoryRange)
    {r : Except Xous.Error WaitingMessage} {s' : Server}
    (hrun : take_waiting_message_go s idx pid ctx sa ca len forget buf = some (r, s')) :
    queue_inv n s' := by
  have h2 : queue_inv n
      { s with queue := s.queue.set idx QueuedMessage.Empty
               queue_tail := advance_index s.queue_tail s.queue.length } := by
    refine ⟨by simp [hlen], by simpa using hh, ?_⟩
    show advance_index s.queue_tail s.queue.length < n
    rw [← hlen]
    exact advance_index_lt (by omega)
  simp only [take_waiting_message_go] at hrun
  split at hrun
  · simp only [Option.some.injEq, Prod.mk.injEq] at hrun
    obtain ⟨-, hs'⟩ := hrun
    subst hs'
    exact ⟨hlen, hh, ht⟩
  · split at hrun
    · simp only [Option.some.injEq, Prod.mk.injEq] at hrun
      obtain ⟨-, hs'⟩ := hrun
      subst hs'
      exact h2
    · split at hrun
      · simp only [Option.some.injEq, Prod.mk.injEq] at hrun
        obtain ⟨-, hs'⟩ := hrun
        subst hs'
        exact h2
      · split at hrun
        · simp only [Option.some.injEq, Prod.mk.injEq] at hrun
          obtain ⟨-, hs'⟩ := hrun
          subst hs'
          exact h2
        · simp at hrun

/-- Completing a reply preserves the cursor invariant. -/
theorem take_waiting_message_inv {n : Nat} {s : Server} (h : queue_inv n s)
    (idx : Nat) (buf : Xous.MemoryRange)
    {r : Except Xous.Error WaitingMessage} {s' : Server}
    (hrun : take_waiting_message s idx buf = some (r, s')) : queue_inv n s' := by
  obtain ⟨hlen, hh, ht⟩ := h
  unfold take_waiting_message at hrun
  by_cases hgt : idx > s.queue.length
  · rw [if_pos hgt] at hrun
    simp only [Option.some.injEq, Prod.mk.injEq] at hrun
    obtain ⟨-, hs'⟩ := hrun
    subst hs'
    exact ⟨hlen, hh, ht⟩
  · rw [if_neg hgt] at hrun
    rcases hq : s.queue[idx]? with _ | slot
    · rw [hq] at hrun
      exact absurd hrun (by simp)
    · rw [hq] at hrun
      cases slot <;>
        first
          | exact take_waiting_message_go_inv hlen hh ht _ _ _ _ _ _ _ _ hrun
          | (simp only [Option.some.injEq, Prod.mk.injEq] at hrun
             obtain ⟨-, hs'⟩ := hrun
             subst hs'
             exact ⟨hlen, hh, ht⟩)

/-- The termination sweep preserves the cursor invariant. -/
theorem discard_messages_for_pid_inv {n : Nat} {s : Server} (h : queue_inv n s)
    (pid : Nat) : queue_inv n (discard_messages_for_pid s pid) := by
  obtain ⟨hlen, hh, ht⟩ := h
  exact ⟨by simp [discard_messages_for_pid, hlen], hh, ht⟩

/-- Every single operation preserves the cursor invariant. -/
theorem step_op_inv {n : Nat} {s s' : Server} (h : queue_inv n s)
    (op : ServerOp) (hrun : step_op s op = some s') : queue_inv n s' := by
  cases op with
  | enqueue p c m o =>
      simp only [step_op] at hrun
      rcases hq : queue_message s p c m o with _ | ⟨r, s2⟩ <;> rw [hq] at hrun
      · exact absurd hrun (by simp)
      · simp only [Option.map_some', Option.some.injEq] at hrun
        subst hrun
        exact queue_message_inv h p c m o hq
  | admit_reply p c m cl =>
      simp only [step_op] at hrun
      rcases hq : queue_address s p c m cl with _ | ⟨r, s2⟩ <;> rw [hq] at hrun
      · exact absurd hrun (by simp)
      · simp only [Option.map_some', Option.some.injEq] at hrun
        subst hrun
        exact queue_address_inv h p c m cl hq
  | take_next i =>
      simp only [step_op] at hrun
      rcases hq : take_next_message s i with _ | ⟨r, s2⟩ <;> rw [hq] at hrun
      · exact absurd hrun (by simp)
      · simp only [Option.map_some', Option.some.injEq] at hrun
        subst hrun
        exact take_next_message_inv h i hq
  | complete i b =>
      simp only [step_op] at hrun
      rcases hq : take_waiting_message s i b with _ | ⟨r, s2⟩ <;> rw [hq] at hrun
      · exact absurd hrun (by simp)
      · simp only [Option.map_some', Option.some.injEq] at hrun
        subst hrun
        exact take_waiting_message_inv h i b hq
  | discard p =>
      simp only [step_op, Option.some.injEq] at hrun
      subst hrun
      exact discard_messages_for_pid_inv h p

/-- Running any sequence of operations preserves the cursor invariant. -/
theorem run_ops_inv {n : Nat} :
    ∀ (ops : List ServerOp) (s s' : Server), queue_inv n s →
      run_ops s ops = some s' → queue_inv n s'
  | [], s, s', h, hrun => by
      simp only [run_ops, Option.some.injEq] at hrun
      subst hrun
      exact h
  | op :: rest, s, s', h, hrun => by
      unfold run_ops at hrun
      rcases hstep : step_op s op with _ | s1
      · rw [hstep] at hrun
        exact absurd hrun (by simp)
      · rw [hstep] at hrun
        exact run_ops_inv rest s1 s' (step_op_inv h op hstep) hrun

/-- Claim C9: starting from an initialized queue (both cursors zero,
one page of slots), every sequence of admissions, reply-slot
admissions, deliveries, reply completions and termination sweeps that
does not panic keeps the capacity fixed and both cursors strictly
within it. -/
theorem run_ops_cursors_in_range (pid sid : Nat) (ops : List ServerOp)
    (s' : Server) (hrun : run_ops (Server.init pid sid) ops = some s') :
    s'.queue.length = PAGE_SIZE / QUEUED_MESSAGE_SIZE ∧
    s'.queue_head < s'.queue.length ∧ s'.queue_tail < s'.queue.length := by
  have h0 : queue_inv (PAGE_SIZE / QUEUED_MESSAGE_SIZE) (Server.init pid sid) := by
    refine ⟨?_, ?_, ?_⟩
    · simp [Server.init, fresh_server]
    · norm_num [Server.init, fresh_server, PAGE_SIZE, QUEUED_MESSAGE_SIZE]
    · norm_num [Server.init, fresh_server, PAGE_SIZE, QUEUED_MESSAGE_SIZE]
  obtain ⟨hlen, hh, ht⟩ := run_ops_inv ops _ s' h0 hrun
  exact ⟨hlen, by omega, by omega⟩

/-- Witness for the cursor invariant after an admit-then-take run. -/
theorem run_ops_cursors_in_range_witness :
    (⟨9, 3, 1, 1, List.replicate 128 QueuedMessage.Empty, 0⟩ : Server).queue.length =
      PAGE_SIZE / QUEUED_MESSAGE_SIZE ∧
    (⟨9, 3, 1, 1, List.replicate 128 QueuedMessage.Empty, 0⟩ : Server).queue_head <
      (⟨9, 3, 1, 1, List.replicate 128 QueuedMessage.Empty, 0⟩ : Server).queue.length ∧
    (⟨9, 3, 1, 1, List.replicate 128 QueuedMessage.Empty, 0⟩ : Server).queue_tail <
      (⟨9, 3, 1, 1, List.replicate 128 QueuedMessage.Empty, 0⟩ : Server).queue.length :=
  run_ops_cursors_in_range 3 9
    [ServerOp.enqueue 3 1 (.Scalar ⟨42, 1, 2, 3, 4⟩) none, ServerOp.take_next 0]
    ⟨9, 3, 1, 1, List.replicate 128 QueuedMessage.Empty, 0⟩ (by rfl)

/-- The high-half mask applied by `make_sender` is a no-op for a 16-bit
pid. -/
theorem shiftLeft_and_high_mask {pid : Nat} (hp : pid < 65536) :
    (pid <<< 16) &&& 0xffff0000 = pid <<< 16 := by
  apply Nat.eq_of_testBit_eq
  intro i
  rw [Nat.testBit_and]
  rcases Nat.lt_or_ge i 16 with hi | hi
  · have h1 : (pid <<< 16).testBit i = false := by
      rw [Nat.testBit_shiftLeft]
      simp [Nat.not_le.mpr hi]
    simp [h1]
  · rcases Nat.lt_or_ge i 32 with hi2 | hi2
    · have h2 : (0xffff0000 : Nat).testBit i = true := by
        have he : (0xffff0000 : Nat) = (2 ^ 16 - 1) <<< 16 := by decide
        rw [he, Nat.testBit_shiftLeft, Nat.testBit_two_pow_sub_one]
        have d1 : decide (16 ≤ i) = true := by simp [hi]
        have d2 : decide (i - 16 < 16) = true := by simp; omega
        rw [d1, d2]
        rfl
      simp [h2]
    · have h1 : (pid <<< 16).testBit i = false := by
        rw [Nat.testBit_shiftLeft]
        have hb : pid.testBit (i - 16) = false := by
          apply Nat.testBit_lt_two_pow
          calc pid < 65536 := hp
            _ = 2 ^ 16 := by norm_num
            _ ≤ 2 ^ (i - 16) := Nat.pow_le_pow_right (by norm_num) (by omega)
        simp [hb]
      simp [h1]

/-- For in-range pid and ctx, `make_sender` packs exactly
`(pid << 16) | ctx`. -/
theorem make_sender_eq {pid ctx : Nat} (hp : pid < 65536) (hc : ctx < 65536) :
    make_sender pid ctx = (pid <<< 16) ||| ctx := by
  unfold make_sender
  rw [shiftLeft_and_high_mask hp]
  congr 1
  have he : (0xffff : Nat) = 2 ^ 16 - 1 := by norm_num
  rw [he, Nat.and_pow_two_sub_one_eq_mod, Nat.mod_eq_of_lt hc]

/-- The stored `unwrap_or(0)` image of an optional nonzero size is
undone by `MemorySize::new`. -/
theorem size_new_getD {o : Option Nat} (h : ∀ x ∈ o, x ≠ 0) :
    Xous.MemorySize.new (o.getD 0) = o := by
  cases o with
  | none => rfl
  | some x => simp [Xous.MemorySize.new, h x rfl]

/-- Claim C7: a message admitted into an empty head slot and immediately
taken (tail at that slot) is delivered structurally equal, with sender
`(pid << 16) | tid` for Scalar and Move and
`(server_index << 16) | slot_index` for the borrows; a borrow whose
sender is swept by the termination path between admission and delivery
(the Terminated variant) is delivered identically with the same sender
token. The pid bound restates the 8-bit `PID` type of the source, the
tid bound the `as u16` storage of the thread id, and the nonzero bounds
the `NonZeroUsize` payload options. -/
theorem admit_take_round_trip (s : Server) (pid ctx sidx : Nat)
    (hempty : s.queue[s.queue_head]? = some QueuedMessage.Empty)
    (htl : s.queue_tail = s.queue_head)
    (hp : pid < 256) (hc : ctx < 65536) :
    (∀ (m : Xous.ScalarMessage) (orig : Option Nat),
      match queue_message s pid ctx (.Scalar m) orig with
      | some (.ok i, s1) =>
          match take_next_message s1 sidx with
          | some (some env, _) =>
              i = s.queue_head ∧ env.message = .Scalar m ∧
              env.sender = (pid <<< 16) ||| ctx
          | _ => False
      | _ => False) ∧
    (∀ (m : Xous.MemoryMessage) (orig : Option Nat),
      (∀ x ∈ m.offset, x ≠ 0) → (∀ x ∈ m.valid, x ≠ 0) →
      match queue_message s pid ctx (.Move m) orig with
      | some (.ok i, s1) =>
          match take_next_message s1 sidx with
          | some (some env, _) =>
              i = s.queue_head ∧ env.message = .Move m ∧
              env.sender = (pid <<< 16) ||| ctx
          | _ => False
      | _ => False) ∧
    (∀ (m : Xous.MemoryMessage) (orig : Option Nat),
      (∀ x ∈ m.offset, x ≠ 0) → (∀ x ∈ m.valid, x ≠ 0) →
      match queue_message s pid ctx (.Borrow m) orig with
      | some (.ok i, s1) =>
          match take_next_message s1 sidx with
          | some (some env, _) =>
              i = s.queue_head ∧ env.message = .Borrow m ∧
              env.sender = (sidx <<< 16) ||| i
          | _ => False
      | _ => False) ∧
    (∀ (m : Xous.MemoryMessage) (orig : Option Nat),
      (∀ x ∈ m.offset, x ≠ 0) → (∀ x ∈ m.valid, x ≠ 0) →
      match queue_message s pid ctx (.MutableBorrow m) orig with
      | some (.ok i, s1) =>
          match take_next_message s1 sidx with
          | some (some env, _) =>
              i = s.queue_head ∧ env.message = .MutableBorrow m ∧
              env.sender = (sidx <<< 16) ||| i
          | _ => False
      | _ => False) ∧
    (∀ (m : Xous.MemoryMessage) (orig : Option Nat),
      (∀ x ∈ m.offset, x ≠ 0) → (∀ x ∈ m.valid, x ≠ 0) →
      match queue_message s pid ctx (.Borrow m) orig with
      | some (.ok i, s1) =>
          match take_next_message (discard_messages_for_pid s1 pid) sidx with
          | some (some env, _) =>
              i = s.queue_head ∧ env.message = .Borrow m ∧
              env.sender = (sidx <<< 16) ||| i
          | _ => False
      | _ => False) := by
  have hhead : s.queue_head < s.queue.length :=
    (List.getElem?_eq_some.mp hempty).choose
  have hmod : ctx % 65536 = ctx := Nat.mod_eq_of_lt hc
  refine ⟨?_, ?_, ?_, ?_, ?_⟩
  · intro m orig
    have hget : (s.queue.set s.queue_head
        (queued_entry_of pid ctx (.Scalar m) orig))[s.queue_head]? =
        some (queued_entry_of pid ctx (.Scalar m) orig) :=
      List.getElem?_set_self hhead
    simp only [queued_entry_of] at hget
    simp only [queue_message, hempty, ne_eq, not_true_eq_false, if_false, queued_entry_of]
    simp only [take_next_message, htl, hget]
    exact ⟨trivial, trivial, by rw [hmod, make_sender_eq (by omega) hc]⟩
  · intro m orig hoff hval
    have hget : (s.queue.set s.queue_head
        (queued_entry_of pid ctx (.Move m) orig))[s.queue_head]? =
        some (queued_entry_of pid ctx (.Move m) orig) :=
      List.getElem?_set_self hhead
    simp only [queued_entry_of] at hget
    simp only [queue_message, hempty, ne_eq, not_true_eq_false, if_false, queued_entry_of]
    simp only [take_next_message, htl, hget]
    refine ⟨trivial, ?_, by rw [hmod, make_sender_eq (by omega) hc]⟩
    rw [size_new_getD hoff, size_new_getD hval]
  · intro m orig hoff hval
    have hget : (s.queue.set s.queue_head
        (queued_entry_of pid ctx (.Borrow m) orig))[s.queue_head]? =
        some (queued_entry_of pid ctx (.Borrow m) orig) :=
      List.getElem?_set_self hhead
    simp only [queued_entry_of] at hget
    simp only [queue_message, hempty, ne_eq, not_true_eq_false, if_false, queued_entry_of]
    simp only [take_next_message, htl, hget]
    refine ⟨trivial, ?_, ?_⟩
    · rw [size_new_getD hoff, size_new_getD hval]
    · exact Nat.lor_comm _ _
  · intro m orig hoff hval
    have hget : (s.queue.set s.queue_head
        (queued_entry_of pid ctx (.MutableBorrow m) orig))[s.queue_head]? =
        some (queued_entry_of pid ctx (.MutableBorrow m) orig) :=
      List.getElem?_set_self hhead
    simp only [queued_entry_of] at hget
    simp only [queue_message, hempty, ne_eq, not_true_eq_false, if_false, queued_entry_of]
    simp only [take_next_message, htl, hget]
    refine ⟨trivial, ?_, ?_⟩
    · rw [size_new_getD hoff, size_new_getD hval]
    · exact Nat.lor_comm _ _
  · intro m orig hoff hval
    have hget : ((s.queue.set s.queue_head
        (queued_entry_of pid ctx (.Borrow m) orig)).map
          (discard_entry pid))[s.queue_head]? =
        some (QueuedMessage.MemoryMessageROLendTerminated pid (ctx % 65536)
          (orig.getD 0) m.id m.buf.addr m.buf.size (m.offset.getD 0)
          (m.valid.getD 0)) := by
      rw [List.getElem?_map, List.getElem?_set_self hhead]
      simp [queued_entry_of, discard_entry]
    simp only [queued_entry_of] at hget
    simp only [queue_message, hempty, ne_eq, not_true_eq_false, if_false, queued_entry_of]
    simp only [take_next_message, discard_messages_for_pid, htl, hget]
    refine ⟨trivial, ?_, ?_⟩
    · rw [size_new_getD hoff, size_new_getD hval]
    · exact Nat.lor_comm _ _

/-- Witness for the reply-completion cases: completing a matching
`WaitingForget` at index 1 of a two-slot queue (tail also at 1) empties
the slot and wraps the tail to 0. -/
theorem take_waiting_message_completes_witness :
    take_waiting_message
      ⟨0, 1, 0, 1, [QueuedMessage.Empty, QueuedMessage.WaitingForget 3 1 8 16 4], 0⟩
      1 ⟨8, 4⟩ =
      some (.ok (.ForgetMemory ⟨8, 4⟩),
        ⟨0, 1, 0, 0, [QueuedMessage.Empty, QueuedMessage.Empty], 0⟩) :=
  (take_waiting_message_completes
    ⟨0, 1, 0, 1, [QueuedMessage.Empty, QueuedMessage.WaitingForget 3 1 8 16 4], 0⟩
    1 ⟨8, 4⟩ (by decide) (by decide)).1 3 1 8 16 4 rfl rfl rfl

/-- Witness for the round trip: a scalar admitted into a one-slot queue
comes back structurally equal with sender `0x30001`. -/
theorem admit_take_round_trip_witness :
    (match queue_message ⟨0, 1, 0, 0, [QueuedMessage.Empty], 0⟩ 3 1
        (.Scalar ⟨42, 1, 2, 3, 4⟩) none with
      | some (.ok i, s1) =>
          match take_next_message s1 5 with
          | some (some env, _) =>
              i = (⟨0, 1, 0, 0, [QueuedMessage.Empty], 0⟩ : Server).queue_head ∧
              env.message = .Scalar ⟨42, 1, 2, 3, 4⟩ ∧
              env.sender = (3 <<< 16) ||| 1
          | _ => False
      | _ => False) :=
  (admit_take_round_trip ⟨0, 1, 0, 0, [QueuedMessage.Empty], 0⟩ 3 1 5 rfl rfl
    (by decide) (by decide)).1 ⟨42, 1, 2, 3, 4⟩ none
